import Mathlib

/-!
Shallow embedding of `src/collective/aggregator.h` (xgboost collective
aggregation layer) and proofs about it.

Modelling conventions.  The workers of one process group run the same
SPMD code; we model the run of one worker of rank `rank` in lockstep with
the others.  The collective collaborators are modelled by their
interface contracts (spec section 6):
`Broadcast(ctx, buf, 0)` delivers the root worker's buffer contents to
every worker, and `Allreduce` replaces every worker's buffer with the
elementwise-combined buffer.  Because the broadcast roots are always
rank 0, a worker's run is a function of the leader's data (passed in
explicitly as `b0`, the leader's buffer) besides its own.  Every model
function also returns the trace of events it performed, so that claims
about ordering and about the number of collective calls can be stated.
C++ exceptions (`dmlc::Error`, thrown by `LOG(FATAL)`) are modelled with
`Except String`: `.error msg` is a run that terminates fatally.
Machine integers (`std::size_t`, `std::uint64_t`) hold buffer lengths
far below their range here and are modelled by `Nat`.
-/

namespace XgbAgg

/-- `xgboost::collective::Result` restricted to what this header observes:
a collective step either succeeds or fails with a message. -/
inductive CResult where
  | success : CResult
  | fail (msg : String) : CResult
deriving DecidableEq, Repr

/-- Reduction operator of `collective::Allreduce` (`Op::kSum`, `Op::kMax`). -/
inductive ROp where
  | sum : ROp
  | max : ROp
deriving DecidableEq, Repr

/-- Events a single worker performs, in program order.  The `bcast*` and
`allreduce` constructors are the collective calls; the others are local. -/
inductive Ev where
  | evalGrad : Ev
  | encrypt (data : List Rat) : Ev
  | bcastMsgSize (n : Nat) : Ev
  | bcastMsg (s : String) : Ev
  | fatal (s : String) : Ev
  | bcastSize (n : Nat) : Ev
  | bcastBuf (n : Nat) : Ev
  | bcastNBytes (n : Nat) : Ev
  | resizeTransfer (n : Nat) : Ev
  | bcastBytes (p : List Nat) : Ev
  | syncGrad (p : List Nat) : Ev
  | zeroGpair : Ev
  | allreduce (op : ROp) : Ev
deriving DecidableEq, Repr

/-- Whether an event is a collective call (a `Broadcast` or `Allreduce`
issued to the communicator). -/
def Ev.isColl : Ev → Bool
  | .bcastMsgSize _ => true
  | .bcastMsg _ => true
  | .bcastSize _ => true
  | .bcastBuf _ => true
  | .bcastNBytes _ => true
  | .bcastBytes _ => true
  | .allreduce _ => true
  | _ => false

/-- Whether an event is a call to the plugin's `SyncEncryptedGradient`. -/
def Ev.isSync : Ev → Bool
  | .syncGrad _ => true
  | _ => false

/-- Outcome of the leader evaluating the user callback `fn`: it either
returns normally, or raises a `dmlc::Error` whose `what()` is the given
message. -/
abbrev FnOutcome := Except String Unit

/-- The message held by the leader after the try/catch of
`detail::TryApplyWithLabels` (aggregator.h lines 29-36): empty when `fn`
returned normally, otherwise `e.what()`. -/
def leaderMsg (fn : FnOutcome) : String :=
  match fn with
  | .ok _ => ""
  | .error e => e

instance {ε α : Type} [DecidableEq ε] [DecidableEq α] : DecidableEq (Except ε α) := fun x y =>
  match x, y with
  | .ok a, .ok b =>
    if h : a = b then .isTrue (by rw [h]) else .isFalse (by intro hh; cases hh; exact h rfl)
  | .error a, .error b =>
    if h : a = b then .isTrue (by rw [h]) else .isFalse (by intro hh; cases hh; exact h rfl)
  | .ok _, .error _ => .isFalse (by intro h; cases h)
  | .error _, .ok _ => .isFalse (by intro h; cases h)

/-- Result of one worker's run of `detail::TryApplyWithLabels`:
the returned `Result` (or `.error msg` when the run ends in `LOG(FATAL)`),
how many times this worker evaluated `fn`, and the event trace. -/
structure TryRun where
  result : Except String CResult
  fnEvals : Nat
  events : List Ev
deriving DecidableEq, Repr

/-- `detail::TryApplyWithLabels` (aggregator.h lines 28-54) as run by the
worker of rank `rank`.  The leader (rank 0) evaluates `fn`, catching a
`dmlc::Error` into `msg`; then `msg_size` is broadcast from rank 0, so
every worker's `msg_size` equals the length of the leader's message; if
it is nonzero the message bytes are broadcast from rank 0 and every
worker ends in `LOG(FATAL) << msg`. -/
def TryApplyWithLabels (fn : FnOutcome) (rank : Nat) : TryRun :=
  let fnEvals : Nat := if rank = 0 then 1 else 0
  let msg_size : Nat := (leaderMsg fn).length
  let ev1 : List Ev := [.bcastMsgSize msg_size]
  if 0 < msg_size then
    let msg : String := leaderMsg fn
    { result := .error msg
      fnEvals := fnEvals
      events := ev1 ++ [.bcastMsg msg, .fatal msg] }
  else
    { result := .ok .success
      fnEvals := fnEvals
      events := ev1 }

/-- Result of one worker's run of an `ApplyWithLabels` overload: the final
contents of the result buffer, the chained `Result` (or fatal), the number
of local evaluations of `fn`, and the event trace. -/
structure ApplyRun (α : Type) where
  buf : List α
  result : Except String CResult
  fnEvals : Nat
  events : List Ev

/-- `HostDeviceVector<T>::Resize(n)`: keeps the first `n` elements and
fills any new slots with the default value `d`. -/
def hdvResize {α : Type} (v : List α) (n : Nat) (d : α) : List α :=
  v.take n ++ List.replicate (n - v.length) d

/-- The raw-buffer overload of `ApplyWithLabels` (aggregator.h lines
70-84) as run by the worker of rank `rank`.  `fn` is modelled as a
function from the buffer contents it sees to either the new contents or a
raised error; `b0` is the leader's buffer, `myBuf` this worker's.  In
vertical federated mode the leader computes and the `size` elements of
its buffer are broadcast into every worker's buffer; otherwise every
worker evaluates `fn` locally. -/
def ApplyWithLabelsBuf {α : Type} (isVF : Bool) (size : Nat)
    (fn : List α → Except String (List α)) (b0 : List α)
    (rank : Nat) (myBuf : List α) : ApplyRun α :=
  if isVF then
    match fn b0 with
    | .ok leaderBuf =>
      let t := TryApplyWithLabels (.ok ()) rank
      let written := leaderBuf.take size ++ myBuf.drop size
      { buf := written
        result := t.result
        fnEvals := t.fnEvals
        events := t.events ++ [.bcastBuf size] }
    | .error m =>
      let t := TryApplyWithLabels (.error m) rank
      { buf := myBuf
        result := t.result
        fnEvals := t.fnEvals
        events := t.events }
  else
    match fn myBuf with
    | .ok nb => { buf := nb, result := .ok .success, fnEvals := 1, events := [] }
    | .error m => { buf := myBuf, result := .error m, fnEvals := 1, events := [] }

/-- The `HostDeviceVector` overload of `ApplyWithLabels` (aggregator.h
lines 99-118) as run by the worker of rank `rank`.  In vertical federated
mode, after the leader computes, the leader's result size is broadcast,
every worker resizes its container to that size (new slots filled with
the default `d`), and the leader's `size` elements are broadcast into the
resized container. -/
def ApplyWithLabelsVec {α : Type} (d : α) (isVF : Bool)
    (fn : List α → Except String (List α)) (b0 : List α)
    (rank : Nat) (myBuf : List α) : ApplyRun α :=
  if isVF then
    match fn b0 with
    | .ok leaderBuf =>
      let t := TryApplyWithLabels (.ok ()) rank
      let afterTry := if rank = 0 then leaderBuf else myBuf
      let size := leaderBuf.length
      let resized := hdvResize afterTry size d
      let written := leaderBuf.take size ++ resized.drop size
      { buf := written
        result := t.result
        fnEvals := t.fnEvals
        events := t.events ++ [.bcastSize size, .bcastBuf size] }
    | .error m =>
      let t := TryApplyWithLabels (.error m) rank
      { buf := myBuf
        result := t.result
        fnEvals := t.fnEvals
        events := t.events }
  else
    match fn myBuf with
    | .ok nb => { buf := nb, result := .ok .success, fnEvals := 1, events := [] }
    | .error m => { buf := myBuf, result := .error m, fnEvals := 1, events := [] }

/-- The numeric operations the template type `T` of the conditional
global reductions supplies: `+`, `/`, the comparison `divisor <= 0`, and
`std::numeric_limits<T>::quiet_NaN()`. -/
structure NumT (T : Type) where
  add : T → T → T
  div : T → T → T
  leZero : T → Bool
  quietNaN : T

/-- IEEE floating-point values as used by this header: a NaN, or a finite
value (the inputs exercised here are exactly representable, so finite
values are modelled by rationals). -/
inductive FP where
  | nan : FP
  | val (q : Rat) : FP
deriving DecidableEq, Repr

/-- Floating-point addition on the values reachable here: NaN absorbs. -/
def FP.add : FP → FP → FP
  | .val a, .val b => .val (a + b)
  | _, _ => .nan

/-- Floating-point division on the values reachable through `GlobalRatio`
(the divisor is NaN or strictly positive there): NaN absorbs. -/
def FP.div : FP → FP → FP
  | .val a, .val b => .val (a / b)
  | _, _ => .nan

/-- The C++ comparison `divisor <= 0`: false on NaN (every IEEE
comparison with a NaN is false). -/
def FP.leZero : FP → Bool
  | .nan => false
  | .val q => decide (q ≤ 0)

/-- The reduction template instantiated at a floating-point type:
`quiet_NaN()` is an actual NaN. -/
def fpTraits : NumT FP where
  add := FP.add
  div := FP.div
  leZero := FP.leZero
  quietNaN := FP.nan

/-- The reduction template instantiated at an integral type.  For an
integral `T`, `std::numeric_limits<T>::quiet_NaN()` is specified by the
C++ standard to return `T()`, that is `0`; and `/` truncates toward
zero (`Int.tdiv`). -/
def intTraits : NumT Int where
  add := (· + ·)
  div := Int.tdiv
  leZero := fun q => decide (q ≤ 0)
  quietNaN := 0

/-- `collective::Allreduce` modelled by its interface contract: given the
per-worker buffers (index = rank), every worker receives the buffers
combined elementwise-in-rank-order with `op`. -/
def AllreduceVals {α : Type} (op : α → α → α) (vals : List α) : List α :=
  match vals with
  | [] => []
  | v :: rest => vals.map fun _ => rest.foldl op v

/-- `GlobalMax` (aggregator.h lines 131-140) in lockstep over all
workers: `vals` holds each worker's `value` argument (index = rank); the
result holds each worker's return value, paired with the event trace each
worker performs.  The `Allreduce` with `Op::kMax` runs only when the data
is row-split. -/
def GlobalMax {α : Type} (maxOp : α → α → α) (isRowSplit : Bool)
    (vals : List α) : List α × List Ev :=
  if isRowSplit then
    (AllreduceVals maxOp vals, [.allreduce .max])
  else
    (vals, [])

/-- `GlobalSum` (aggregator.h lines 153-160) in lockstep over all
workers: `bufs` holds each worker's tensor contents, `add` the
elementwise addition of two such buffers.  The `Allreduce` with
`Op::kSum` runs only when the data is row-split; otherwise the function
returns `Success` without touching the buffers. -/
def GlobalSum {α : Type} (add : α → α → α) (isRowSplit : Bool)
    (bufs : List α) : List α × CResult × List Ev :=
  if isRowSplit then
    (AllreduceVals add bufs, .success, [.allreduce .sum])
  else
    (bufs, .success, [])

/-- Elementwise addition of the two-element arrays `{dividend, divisor}`
that `GlobalRatio` hands to `GlobalSum`. -/
def pairAdd {T : Type} (nt : NumT T) (a b : T × T) : T × T :=
  (nt.add a.1 b.1, nt.add a.2 b.2)

/-- `GlobalRatio` (aggregator.h lines 174-185) in lockstep over all
workers: each worker packs its `(dividend, divisor)` into a length-2
array, `GlobalSum` conditionally combines them, and each worker then
returns `quiet_NaN()` if its combined divisor satisfies `divisor <= 0`,
else the quotient.  The second component is each worker's event trace. -/
def GlobalRatio {T : Type} (nt : NumT T) (isRowSplit : Bool)
    (pairs : List (T × T)) : List T × List Ev :=
  let s := GlobalSum (pairAdd nt) isRowSplit pairs
  (s.1.map fun p => if nt.leZero p.2 then nt.quietNaN else nt.div p.1 p.2, s.2.2)

/-- `xgboost::GradientPair`: a (gradient, hessian) pair of floats.  The
values exercised here are exactly representable, so the fields are
modelled by rationals. -/
structure GradientPair where
  grad : Rat
  hess : Rat
deriving DecidableEq, Repr

/-- The reinterpretation of a `GradientPair` array as a float array in
`BroadcastGradient` (aggregator.h lines 209-211): `grad` then `hess` of
each pair, in order. -/
def flattenGrad (l : List GradientPair) : List Rat :=
  l.flatMap fun p => [p.grad, p.hess]

/-- Result of one worker's run of `BroadcastGradient`: the final contents
of `out_gpair`, every successive value held by `out_gpair` (initial
contents first, each write appends one entry), the outcome, the number of
local evaluations of `grad_fn`, and the event trace. -/
structure GradRun where
  buf : List GradientPair
  bufTrace : List (List GradientPair)
  result : Except String CResult
  fnEvals : Nat
  events : List Ev
deriving DecidableEq, Repr

/-- The federated-encrypted branch of `BroadcastGradient` (aggregator.h
lines 199-236) as run by the worker of rank `rank`.  `g` models
`grad_fn` (from the `out_gpair` contents it sees to the gradient it
writes), `enc` the plugin's `EncryptGradient`, `b0` the leader's initial
`out_gpair` contents, `myBuf` this worker's.  The leader computes and
encrypts; the payload length and then the payload are broadcast; every
worker hands its copy to `SyncEncryptedGradient`; every worker zeroes
`out_gpair`; finally `ApplyWithLabels` runs over the zeroed buffer with
the original `grad_fn`. -/
def EncryptedBranch (g : List GradientPair → List GradientPair)
    (enc : List Rat → List Nat)
    (b0 : List GradientPair) (rank : Nat) (myBuf : List GradientPair) : GradRun :=
  let leaderGrad := g b0
  let payload := enc (flattenGrad leaderGrad)
  let buf1 := if rank = 0 then leaderGrad else myBuf
  let evA : List Ev := if rank = 0 then [.evalGrad, .encrypt (flattenGrad leaderGrad)] else []
  let n_bytes := payload.length
  let evB := evA ++ [.bcastNBytes n_bytes]
    ++ (if rank = 0 then [] else [.resizeTransfer n_bytes]) ++ [.bcastBytes payload]
  let evC := evB ++ [.syncGrad payload]
  let zeroed := List.replicate buf1.length (GradientPair.mk 0 0)
  let evD := evC ++ [.zeroGpair]
  let leaderZeroed := List.replicate leaderGrad.length (GradientPair.mk 0 0)
  let a := ApplyWithLabelsVec (GradientPair.mk 0 0) true
    (fun b => Except.ok (g b)) leaderZeroed rank zeroed
  { buf := a.buf
    bufTrace := (if rank = 0 then [myBuf, leaderGrad] else [myBuf]) ++ [zeroed, a.buf]
    result := a.result
    fnEvals := (if rank = 0 then 1 else 0) + a.fnEvals
    events := evD ++ a.events }

/-- The message of `error::NoFederated()` (defined outside this header):
the federated-plugin capability is absent from the running build. -/
def noFederated : String := "not compiled with the federated learning plugin"

/-- `BroadcastGradient` (aggregator.h lines 195-243) as run by the worker
of rank `rank`.  `fedCompiled` models whether `XGBOOST_USE_FEDERATED` was
defined when the running build was compiled; `isVF` is
`info.IsVerticalFederated()` and `encrypted` is `IsEncrypted()`.  The
encrypted branch runs only when both hold; without the federated
capability that branch is `LOG(FATAL) << error::NoFederated()`; all other
configurations delegate to `ApplyWithLabels` over `out_gpair->Data()`. -/
def BroadcastGradient (fedCompiled isVF encrypted : Bool)
    (g : List GradientPair → List GradientPair) (enc : List Rat → List Nat)
    (b0 : List GradientPair) (rank : Nat) (myBuf : List GradientPair) : GradRun :=
  if isVF && encrypted then
    if fedCompiled then
      EncryptedBranch g enc b0 rank myBuf
    else
      { buf := myBuf
        bufTrace := [myBuf]
        result := .error noFederated
        fnEvals := 0
        events := [.fatal noFederated] }
  else
    let a := ApplyWithLabelsVec (GradientPair.mk 0 0) isVF
      (fun b => Except.ok (g b)) b0 rank myBuf
    { buf := a.buf
      bufTrace := [myBuf, a.buf]
      result := a.result
      fnEvals := a.fnEvals
      events := a.events }

theorem str_len_zero (s : String) : s.length = 0 ↔ s = "" := by
  cases s with
  | mk data =>
    constructor
    · intro h
      have hd : data = [] := by simpa [String.length] using h
      rw [hd]
    · intro h
      rw [h]
      rfl

theorem str_len_pos (s : String) : 0 < s.length ↔ s ≠ "" := by
  rw [Nat.pos_iff_ne_zero]
  exact not_congr (str_len_zero s)

theorem tryApply_ok_eq (rank : Nat) :
    TryApplyWithLabels (Except.ok ()) rank =
      { result := Except.ok CResult.success
        fnEvals := if rank = 0 then 1 else 0
        events := [Ev.bcastMsgSize 0] } := by
  simp [TryApplyWithLabels, leaderMsg]

theorem tryApply_error_eq (m : String) (hm : m ≠ "") (rank : Nat) :
    TryApplyWithLabels (Except.error m) rank =
      { result := Except.error m
        fnEvals := if rank = 0 then 1 else 0
        events := [Ev.bcastMsgSize m.length, Ev.bcastMsg m, Ev.fatal m] } := by
  have h : 0 < m.length := (str_len_pos m).mpr hm
  simp [TryApplyWithLabels, leaderMsg, h]

theorem hdvResize_length {α : Type} (v : List α) (n : Nat) (d : α) :
    (hdvResize v n d).length = n := by
  simp only [hdvResize, List.length_append, List.length_take, List.length_replicate]
  omega

theorem applyVec_ok {α : Type} (d : α) (fn : List α → Except String (List α))
    (b0 myBuf : List α) (rank : Nat) (res : List α) (h : fn b0 = Except.ok res) :
    ApplyWithLabelsVec d true fn b0 rank myBuf =
      { buf := res
        result := Except.ok CResult.success
        fnEvals := if rank = 0 then 1 else 0
        events := [Ev.bcastMsgSize 0, Ev.bcastSize res.length, Ev.bcastBuf res.length] } := by
  have hdrop : (hdvResize (if rank = 0 then res else myBuf) res.length d).drop res.length = [] :=
    List.drop_eq_nil_of_le (le_of_eq (hdvResize_length _ _ _))
  simp [ApplyWithLabelsVec, h, tryApply_ok_eq, hdrop, List.take_length]

/-- C2, counterexample: the claim says the result of
`detail::TryApplyWithLabels` is `Success` only if the leader's evaluation
of `fn` raised no error.  But when `fn` raises a `dmlc::Error` whose
`what()` is the empty string, the leader's caught message has length 0,
so no worker broadcasts the message or reports a fatal error, and every
worker (shown here for ranks 0 and 1) returns `Success` even though `fn`
raised. -/
theorem tryApply_empty_error_success_cex :
    (TryApplyWithLabels (Except.error "") 0).result = Except.ok CResult.success
    ∧ (TryApplyWithLabels (Except.error "") 1).result = Except.ok CResult.success
    ∧ (Except.error "" : FnOutcome) ≠ Except.ok () := by
  refine ⟨rfl, rfl, ?_⟩
  intro h
  cases h

/-- C2 (amended): `detail::TryApplyWithLabels` evaluates `fn` exactly once
on the leader and never on any other worker; any `dmlc::Error` raised by
that evaluation is caught and converted to its `what()` message; the
result is `Success` if and only if the leader's message is empty (that
is, `fn` raised no error, or raised one carrying an empty message); when
`fn` raises with a nonempty message, every worker terminates fatally
carrying the leader's message; and all workers observe the same outcome
— never a mix. -/
theorem tryApply_outcome (fn : FnOutcome) (r r' : Nat) :
    (TryApplyWithLabels fn r).fnEvals = (if r = 0 then 1 else 0)
    ∧ ((TryApplyWithLabels fn r).result = Except.ok CResult.success ↔ leaderMsg fn = "")
    ∧ (∀ m : String, fn = Except.error m → m ≠ "" →
        (TryApplyWithLabels fn r).result = Except.error m)
    ∧ (TryApplyWithLabels fn r).result = (TryApplyWithLabels fn r').result := by
  by_cases hm : leaderMsg fn = ""
  · have h0 : ¬ 0 < (leaderMsg fn).length := by
      rw [str_len_pos]
      simp [hm]
    refine ⟨by simp [TryApplyWithLabels, h0], by simp [TryApplyWithLabels, h0, hm], ?_, ?_⟩
    · intro m hfn hne
      rw [hfn] at hm
      exact absurd hm hne
    · simp [TryApplyWithLabels, h0]
  · have h0 : 0 < (leaderMsg fn).length := (str_len_pos _).mpr hm
    refine ⟨by simp [TryApplyWithLabels, h0], by simp [TryApplyWithLabels, h0, hm], ?_, ?_⟩
    · intro m hfn hne
      rw [hfn, tryApply_error_eq m hne]
    · simp [TryApplyWithLabels, h0]

/-- C2, witness for the amended theorem at a concrete input: a leader
error "boom" makes rank 1 terminate fatally with the message "boom". -/
theorem tryApply_outcome_witness :
    (TryApplyWithLabels (Except.error "boom") 1).result = Except.error "boom" :=
  (tryApply_outcome (Except.error "boom") 1 0).2.2.1 "boom" rfl (by decide)

/-- C8, counterexample: the claim says that for a fixed mode, two runs
with different data — in particular a leader `fn` that raises versus one
that does not — issue the same sequence of collective calls.  They do
not: a run whose `fn` raises "boom" issues a second broadcast (the
message bytes) that the non-raising run does not issue. -/
theorem tryApply_calls_data_dependent_cex :
    (TryApplyWithLabels (Except.ok ()) 0).events.filter Ev.isColl
      ≠ (TryApplyWithLabels (Except.error "boom") 0).events.filter Ev.isColl := by
  decide

/-- C8 (amended): within one run of `detail::TryApplyWithLabels`, every
worker issues the same event sequence (so the same relative sequence of
collective calls); the sequence depends on the data only through the
leader's caught error message: an empty message gives one length
broadcast, a nonempty message adds the message-bytes broadcast followed
by the unanimous fatal abort. -/
theorem tryApply_calls_uniform (fn fn' : FnOutcome) (r r' : Nat)
    (h : leaderMsg fn = leaderMsg fn') :
    (TryApplyWithLabels fn r).events = (TryApplyWithLabels fn' r').events
    ∧ (TryApplyWithLabels fn r).events =
        (if leaderMsg fn = "" then [Ev.bcastMsgSize 0]
         else [Ev.bcastMsgSize (leaderMsg fn).length, Ev.bcastMsg (leaderMsg fn),
               Ev.fatal (leaderMsg fn)]) := by
  by_cases hm : leaderMsg fn = ""
  · have h0 : ¬ 0 < (leaderMsg fn).length := by
      rw [str_len_pos]
      simp [hm]
    have h0' : ¬ 0 < (leaderMsg fn').length := by
      rw [← h]
      exact h0
    constructor
    · simp [TryApplyWithLabels, h0, h0', hm, ← h]
    · simp [TryApplyWithLabels, h0, hm]
  · have h0 : 0 < (leaderMsg fn).length := (str_len_pos _).mpr hm
    have h0' : 0 < (leaderMsg fn').length := by
      rw [← h]
      exact h0
    constructor
    · simp [TryApplyWithLabels, h0, h0', ← h]
    · simp [TryApplyWithLabels, h0, hm]

/-- C8, witness for the amended theorem at a concrete input: ranks 0 and
1 issue identical event sequences when the leader's `fn` succeeds. -/
theorem tryApply_calls_uniform_witness :
    (TryApplyWithLabels (Except.ok ()) 0).events
      = (TryApplyWithLabels (Except.ok ()) 1).events :=
  (tryApply_calls_uniform (Except.ok ()) (Except.ok ()) 0 1 rfl).1

/-- C3 (confirmed): at a floating-point instantiation, `GlobalRatio`
computes the mode-conditionally summed pair `(X, Y)` and returns NaN
whenever the combined divisor `Y <= 0`, and `X / Y` otherwise; shown for
a single-worker vertical configuration for every dividend and divisor,
for a two-worker row-split configuration with the pair summed across
workers, and at the spec's concrete examples
`GlobalRatio(5.0, 0.0) = NaN`, `GlobalRatio(5.0, -3.0) = NaN` and
`GlobalRatio(6.0, 2.0) = 3.0`. -/
theorem globalRatio_nan_characterization :
    (∀ x y : Rat, y ≤ 0 → (GlobalRatio fpTraits false [(FP.val x, FP.val y)]).1 = [FP.nan])
    ∧ (∀ x y : Rat, 0 < y →
        (GlobalRatio fpTraits false [(FP.val x, FP.val y)]).1 = [FP.val (x / y)])
    ∧ (∀ x1 y1 x2 y2 : Rat, y1 + y2 ≤ 0 →
        (GlobalRatio fpTraits true [(FP.val x1, FP.val y1), (FP.val x2, FP.val y2)]).1
          = [FP.nan, FP.nan])
    ∧ (∀ x1 y1 x2 y2 : Rat, 0 < y1 + y2 →
        (GlobalRatio fpTraits true [(FP.val x1, FP.val y1), (FP.val x2, FP.val y2)]).1
          = [FP.val ((x1 + x2) / (y1 + y2)), FP.val ((x1 + x2) / (y1 + y2))])
    ∧ (GlobalRatio fpTraits false [(FP.val 5, FP.val 0)]).1 = [FP.nan]
    ∧ (GlobalRatio fpTraits false [(FP.val 5, FP.val (-3))]).1 = [FP.nan]
    ∧ (GlobalRatio fpTraits false [(FP.val 6, FP.val 2)]).1 = [FP.val 3] := by
  refine ⟨?_, ?_, ?_, ?_, by decide, by decide,
    by simp [GlobalRatio, GlobalSum, fpTraits, FP.leZero, FP.div]; norm_num⟩
  · intro x y h
    simp [GlobalRatio, GlobalSum, fpTraits, FP.leZero, h]
  · intro x y h
    have hn : ¬ y ≤ 0 := not_le.mpr h
    simp [GlobalRatio, GlobalSum, fpTraits, FP.leZero, FP.div, hn]
  · intro x1 y1 x2 y2 h
    simp [GlobalRatio, GlobalSum, AllreduceVals, pairAdd, fpTraits, FP.add, FP.leZero, h]
  · intro x1 y1 x2 y2 h
    have hn : ¬ y1 + y2 ≤ 0 := not_le.mpr h
    simp [GlobalRatio, GlobalSum, AllreduceVals, pairAdd, fpTraits, FP.add, FP.leZero,
      FP.div, hn]

/-- C3, witness at a concrete input: a negative combined divisor yields
the NaN sentinel. -/
theorem globalRatio_nan_characterization_witness :
    (GlobalRatio fpTraits false [(FP.val 7, FP.val (-1))]).1 = [FP.nan] :=
  globalRatio_nan_characterization.1 7 (-1) (by norm_num)

/-- C10 (confirmed): at an integral instantiation `T`, the sentinel
`std::numeric_limits<T>::quiet_NaN()` that `GlobalRatio` returns for a
combined divisor `<= 0` is `T()`, that is `0`, not a NaN; so in a
single-worker or vertical configuration every integral dividend with a
divisor `<= 0` yields `0`. -/
theorem globalRatio_integral_zero :
    (∀ x y : Int, y ≤ 0 → (GlobalRatio intTraits false [(x, y)]).1 = [(0 : Int)])
    ∧ intTraits.quietNaN = 0
    ∧ (GlobalRatio intTraits false [((5 : Int), 0)]).1 = [(0 : Int)]
    ∧ (GlobalRatio intTraits false [((5 : Int), -3)]).1 = [(0 : Int)] := by
  refine ⟨?_, rfl, by decide, by decide⟩
  intro x y h
  simp [GlobalRatio, GlobalSum, intTraits, h]

/-- C10, witness at a concrete input: integral `GlobalRatio` with divisor
`-2` returns `0`. -/
theorem globalRatio_integral_zero_witness :
    (GlobalRatio intTraits false [((9 : Int), -2)]).1 = [(0 : Int)] :=
  globalRatio_integral_zero.1 9 (-2) (by norm_num)

/-- C4 (confirmed): `GlobalMax`, `GlobalSum` and `GlobalRatio` issue
their collective reduction if and only if the partition mode is
row-split: under any non-row-split configuration each returns the
worker-local inputs unchanged (for `GlobalRatio`, the purely local
ratio) with an empty collective-call trace, while under row-split each
issues exactly the one `Allreduce`. -/
theorem global_reductions_rowsplit_iff {α β : Type} (maxOp : α → α → α) (add : β → β → β) :
    (∀ vals : List α, GlobalMax maxOp false vals = (vals, []))
    ∧ (∀ vals : List α,
        GlobalMax maxOp true vals = (AllreduceVals maxOp vals, [Ev.allreduce ROp.max]))
    ∧ (∀ bufs : List β, GlobalSum add false bufs = (bufs, CResult.success, []))
    ∧ (∀ bufs : List β,
        GlobalSum add true bufs = (AllreduceVals add bufs, CResult.success,
          [Ev.allreduce ROp.sum]))
    ∧ (∀ pairs : List (FP × FP),
        GlobalRatio fpTraits false pairs
          = (pairs.map (fun p => if FP.leZero p.2 then FP.nan else FP.div p.1 p.2), []))
    ∧ (∀ pairs : List (FP × FP), (GlobalRatio fpTraits true pairs).2 = [Ev.allreduce ROp.sum]) := by
  refine ⟨fun vals => rfl, fun vals => rfl, fun bufs => rfl, fun bufs => rfl, ?_, fun pairs => rfl⟩
  intro pairs
  simp [GlobalRatio, GlobalSum, fpTraits]

/-- C7 (confirmed): in vertical-federated mode, the `HostDeviceVector`
overload of `ApplyWithLabels` broadcasts the leader's result size,
resizes identically, then broadcasts the contents, so the result on
every worker equals the leader's computed result — including a resize
from length 0 to length K, since the final contents do not depend on the
worker's initial container; and the fixed-size raw-buffer overload gives
the same replication guarantee. -/
theorem applyWithLabels_replication {α : Type} (d : α)
    (fnv fnb : List α → Except String (List α)) (b0 bv bb : List α)
    (rank size : Nat) (resv resb : List α)
    (hv : fnv b0 = Except.ok resv) (hb : fnb b0 = Except.ok resb)
    (hr : resb.length = size) (hib : bb.length = size) :
    (ApplyWithLabelsVec d true fnv b0 rank bv).buf = resv
    ∧ (ApplyWithLabelsVec d true fnv b0 rank bv).events
        = [Ev.bcastMsgSize 0, Ev.bcastSize resv.length, Ev.bcastBuf resv.length]
    ∧ (ApplyWithLabelsBuf true size fnb b0 rank bb).buf = resb := by
  refine ⟨?_, ?_, ?_⟩
  · rw [applyVec_ok d fnv b0 bv rank resv hv]
  · rw [applyVec_ok d fnv b0 bv rank resv hv]
  · subst hr
    simp [ApplyWithLabelsBuf, hb, tryApply_ok_eq, List.take_length,
      List.drop_eq_nil_of_le (le_of_eq hib)]

/-- C7, witness at a concrete input: a non-leader container of length 0
is resized to the leader's length 3 and ends up holding the leader's
result. -/
theorem applyWithLabels_replication_witness :
    (ApplyWithLabelsVec (0 : Int) true (fun _ => Except.ok [7, 8, 9]) [1] 1 []).buf
      = [7, 8, 9] :=
  (applyWithLabels_replication 0 (fun _ => Except.ok [7, 8, 9]) (fun _ => Except.ok [4, 5])
    [1] [] [0, 0] 1 2 [7, 8, 9] [4, 5] rfl rfl rfl rfl).1

/-- C5 (confirmed): the federated-encrypted branch of `BroadcastGradient`
performs, in order: leader-only gradient computation and encryption via
`EncryptGradient`, a broadcast of the encrypted payload's byte length
from the leader, allocation of a transfer buffer of that length on every
non-leader followed by the broadcast of the payload into it, exactly one
`SyncEncryptedGradient` call per worker, zeroing of the local gradient
buffer on every worker, and finally one `ApplyWithLabels` (whose message
and size/content broadcasts close the trace) over the zeroed buffer with
the original gradient function. -/
theorem broadcastGradient_encrypted_sequence
    (g : List GradientPair → List GradientPair) (enc : List Rat → List Nat)
    (b0 myBuf : List GradientPair) (rank : Nat) :
    (BroadcastGradient true true true g enc b0 rank myBuf).events
      = (if rank = 0 then [Ev.evalGrad, Ev.encrypt (flattenGrad (g b0))] else [])
        ++ [Ev.bcastNBytes (enc (flattenGrad (g b0))).length]
        ++ (if rank = 0 then [] else [Ev.resizeTransfer (enc (flattenGrad (g b0))).length])
        ++ [Ev.bcastBytes (enc (flattenGrad (g b0))),
            Ev.syncGrad (enc (flattenGrad (g b0))), Ev.zeroGpair,
            Ev.bcastMsgSize 0,
            Ev.bcastSize (g (List.replicate (g b0).length (GradientPair.mk 0 0))).length,
            Ev.bcastBuf (g (List.replicate (g b0).length (GradientPair.mk 0 0))).length]
    ∧ ((BroadcastGradient true true true g enc b0 rank myBuf).events.countP Ev.isSync) = 1 := by
  by_cases hrk : rank = 0 <;>
    simp [BroadcastGradient, EncryptedBranch, ApplyWithLabelsVec, tryApply_ok_eq, hrk,
      List.countP_append, List.countP_cons, Ev.isSync]

/-- C9 (confirmed): in the federated-encrypted branch the leader
evaluates `grad_fn` exactly twice — once before encryption and once more
inside the final `ApplyWithLabels` over the zeroed buffer — while
non-leader workers never evaluate it; and the final gradient state of
every worker is the leader's second evaluation (over the zeroed buffer)
broadcast to all, so it agrees with the encrypted first evaluation only
when `grad_fn` repeats deterministically. -/
theorem broadcastGradient_leader_evals
    (g : List GradientPair → List GradientPair) (enc : List Rat → List Nat)
    (b0 myBuf : List GradientPair) (rank : Nat) :
    (BroadcastGradient true true true g enc b0 rank myBuf).fnEvals
      = (if rank = 0 then 2 else 0)
    ∧ (BroadcastGradient true true true g enc b0 rank myBuf).buf
      = g (List.replicate (g b0).length (GradientPair.mk 0 0)) := by
  have ha := applyVec_ok (GradientPair.mk 0 0) (fun b => Except.ok (g b))
    (List.replicate (g b0).length (GradientPair.mk 0 0))
    (List.replicate (if rank = 0 then g b0 else myBuf).length (GradientPair.mk 0 0))
    rank (g (List.replicate (g b0).length (GradientPair.mk 0 0))) rfl
  constructor
  · by_cases hrk : rank = 0 <;>
      simp [BroadcastGradient, EncryptedBranch, ApplyWithLabelsVec, tryApply_ok_eq, hrk]
  · simp [BroadcastGradient, EncryptedBranch, ha]

/-- C1, counterexample: with a gradient function producing the pair
`(1, 2)`, the non-leader worker of rank 1 ends the call with its gradient
buffer holding exactly the leader's plaintext gradient `(1, 2)` — not
zeros — because the final `ApplyWithLabels` of the encrypted branch
recomputes the gradient on the leader and broadcasts it to every worker.
So a worker other than the leader does observe the plaintext gradient
after the call. -/
theorem broadcastGradient_nonleader_plaintext_cex :
    (BroadcastGradient true true true (fun _ => [GradientPair.mk 1 2]) (fun _ => [9])
        [GradientPair.mk 0 0] 1 [GradientPair.mk 0 0]).buf = [GradientPair.mk 1 2]
    ∧ GradientPair.mk 1 2 ≠ GradientPair.mk 0 0 := by
  constructor
  · rfl
  · decide

/-- C1 (amended): in the federated-encrypted branch, a non-leader's
gradient buffer holds, in order, only its initial contents, then the
zero fill `GradientPair{0,0}` (performed before any further
consumption), and then — as the final state produced by the closing
`ApplyWithLabels` broadcast — the leader's recomputed plaintext
gradient; so before that final repopulation no leader-derived value ever
reaches a non-leader buffer, but after the call every worker holds the
leader's gradient values. -/
theorem broadcastGradient_nonleader_trace
    (g : List GradientPair → List GradientPair) (enc : List Rat → List Nat)
    (b0 myBuf : List GradientPair) (rank : Nat) (h : rank ≠ 0) :
    (BroadcastGradient true true true g enc b0 rank myBuf).bufTrace
      = [myBuf, List.replicate myBuf.length (GradientPair.mk 0 0),
         g (List.replicate (g b0).length (GradientPair.mk 0 0))] := by
  have ha := applyVec_ok (GradientPair.mk 0 0) (fun b => Except.ok (g b))
    (List.replicate (g b0).length (GradientPair.mk 0 0))
    (List.replicate (if rank = 0 then g b0 else myBuf).length (GradientPair.mk 0 0))
    rank (g (List.replicate (g b0).length (GradientPair.mk 0 0))) rfl
  simp [h] at ha
  simp [BroadcastGradient, EncryptedBranch, ha, h]

/-- C1, witness for the amended theorem at a concrete input: rank 1's
buffer states are its initial contents, then zeros, then the leader's
recomputed gradient. -/
theorem broadcastGradient_nonleader_trace_witness :
    (BroadcastGradient true true true (fun _ => [GradientPair.mk 1 2]) (fun _ => [9])
        [GradientPair.mk 0 0] 1 [GradientPair.mk 3 4]).bufTrace
      = [[GradientPair.mk 3 4], [GradientPair.mk 0 0], [GradientPair.mk 1 2]] :=
  broadcastGradient_nonleader_trace (fun _ => [GradientPair.mk 1 2]) (fun _ => [9])
    [GradientPair.mk 0 0] [GradientPair.mk 3 4] 1 (by decide)

/-- C6 (confirmed): invoking `BroadcastGradient` with partition mode
vertical-federated and encryption enabled in a build without the
federated capability fails immediately with the fatal
`error::NoFederated()` configuration error: no collective call is
issued, `grad_fn` is never evaluated, and the gradient buffer is left
untouched — there is no silent fallback to the plaintext path. -/
theorem broadcastGradient_no_federated_fatal
    (g : List GradientPair → List GradientPair) (enc : List Rat → List Nat)
    (b0 myBuf : List GradientPair) (rank : Nat) :
    (BroadcastGradient false true true g enc b0 rank myBuf).result
      = Except.error noFederated
    ∧ (BroadcastGradient false true true g enc b0 rank myBuf).events
      = [Ev.fatal noFederated]
    ∧ (BroadcastGradient false true true g enc b0 rank myBuf).events.filter Ev.isColl = []
    ∧ (BroadcastGradient false true true g enc b0 rank myBuf).buf = myBuf
    ∧ (BroadcastGradient false true true g enc b0 rank myBuf).fnEvals = 0 :=
  ⟨rfl, rfl, rfl, rfl, rfl⟩

end XgbAgg
